import Mathlib

/-!
# Verification of the chrono duration / date-time arithmetic kernel

Shallow embedding of `src/time_delta.rs`, `src/calendar_duration.rs` and the
`signed_duration_since` path of `src/naive/datetime/mod.rs`.

Conventions of the embedding:
* Rust `i64`/`i32` values are modelled as `Int`.  Where the source relies on
  two's-complement wrapping that is actually reachable (the `secs`
  multiplication in `impl Mul<i32> for TimeDelta`), the wrap is written
  explicitly with `wrap64`.  All other arithmetic in the embedded functions is
  exact on the input domains used by the theorems (the source comments state
  the same, e.g. "No overflow checks here because we stay comfortably within
  the range of an i64").
* Rust `u32`/`u64`/`u8` values are modelled as `Nat`.
* Rust truncating division `/` and remainder `%` on signed integers are
  `Int.tdiv` / `Int.tmod`; `div_euclid` / `rem_euclid` (the source's
  `div_mod_floor_64`) are Lean's Euclidean `/` / `%` on `Int`.
* Bit operations on the packed `CalendarDuration` word are rendered
  arithmetically: `x << k` is `x * 2^k`, `x >> k` is `x / 2^k`,
  `x & mask` is `x % (mask+1)`, and `|` of disjoint bit ranges is `+`.
* Rust `Result<T, Error>` is `Except Error T`, `Option<T>` is `Option T`;
  a `panic`/`expect` site is modelled by keeping the fallible value.
-/

namespace Chrono

/-- `i64::MAX` = 2^63 - 1. -/
def i64MAX : Int := 9223372036854775807

/-- `i64::MIN` = -2^63. -/
def i64MIN : Int := -9223372036854775808

/-- The number of nanoseconds in a microsecond. -/
def NANOS_PER_MICRO : Int := 1000

/-- The number of nanoseconds in a millisecond. -/
def NANOS_PER_MILLI : Int := 1000000

/-- The number of nanoseconds in seconds. -/
def NANOS_PER_SEC : Int := 1000000000

/-- The number of microseconds per second. -/
def MICROS_PER_SEC : Int := 1000000

/-- The number of milliseconds per second. -/
def MILLIS_PER_SEC : Int := 1000

/-- The number of seconds in a minute. -/
def SECS_PER_MINUTE : Int := 60

/-- The number of seconds in an hour. -/
def SECS_PER_HOUR : Int := 3600

/-- The number of (non-leap) seconds in days. -/
def SECS_PER_DAY : Int := 86400

/-- The number of (non-leap) seconds in a week. -/
def SECS_PER_WEEK : Int := 604800

/-- The Rust `as u32` cast of a (possibly signed) value: reduction mod 2^32. -/
def u32cast (x : Int) : Nat := (x % 4294967296).toNat

/-- Two's-complement wrap of an `i64` arithmetic result. -/
def wrap64 (x : Int) : Int := (x + 9223372036854775808) % 18446744073709551616 - 9223372036854775808

/-- The error type of the crate (`Error::OutOfRange` / `Error::InvalidArgument`). -/
inductive Error where
  | OutOfRange
  | InvalidArgument
deriving DecidableEq, Repr

instance {e a : Type} [DecidableEq e] [DecidableEq a] : DecidableEq (Except e a) :=
  fun x y =>
    match x, y with
    | .ok v, .ok w => if h : v = w then isTrue (by rw [h]) else isFalse (by simp [h])
    | .error v, .error w => if h : v = w then isTrue (by rw [h]) else isFalse (by simp [h])
    | .ok _, .error _ => isFalse (by simp)
    | .error _, .ok _ => isFalse (by simp)

/-- `TimeDelta`: seconds plus a nanosecond remainder (`0 <= nanos < NANOS_PER_SEC`
is the documented invariant of the `nanos` field). -/
structure TimeDelta where
  secs : Int
  nanos : Int
deriving DecidableEq, Repr

/-- The minimum possible `TimeDelta`: `-i64::MAX` milliseconds
(`MIN` in `time_delta.rs`; Rust `/` and `%` are truncating). -/
def TimeDelta.MIN : TimeDelta :=
  ⟨(-i64MAX).tdiv MILLIS_PER_SEC - 1,
   NANOS_PER_SEC + ((-i64MAX).tmod MILLIS_PER_SEC) * NANOS_PER_MILLI⟩

/-- The maximum possible `TimeDelta`: `i64::MAX` milliseconds (`MAX` in `time_delta.rs`). -/
def TimeDelta.MAX : TimeDelta :=
  ⟨i64MAX.tdiv MILLIS_PER_SEC, (i64MAX.tmod MILLIS_PER_SEC) * NANOS_PER_MILLI⟩

/-- `TimeDelta::new(secs: i64, nanos: u32)`. -/
def TimeDelta.new (secs : Int) (nanos : Nat) : Except Error TimeDelta :=
  if (nanos : Int) ≥ 1000000000 then .error .InvalidArgument
  else if secs < TimeDelta.MIN.secs ∨ secs > TimeDelta.MAX.secs
      ∨ (secs = TimeDelta.MAX.secs ∧ (nanos : Int) > TimeDelta.MAX.nanos)
      ∨ (secs = TimeDelta.MIN.secs ∧ (nanos : Int) < TimeDelta.MIN.nanos) then
    .error .OutOfRange
  else .ok ⟨secs, (nanos : Int)⟩

/-- `TimeDelta::weeks` (the `expect(..., "always in range")` is modelled by
keeping the fallible result). -/
def TimeDelta.weeks (weeks : Int) : Option TimeDelta :=
  (TimeDelta.new (weeks * SECS_PER_WEEK) 0).toOption

/-- `TimeDelta::days`. -/
def TimeDelta.days (days : Int) : Option TimeDelta :=
  (TimeDelta.new (days * SECS_PER_DAY) 0).toOption

/-- `TimeDelta::hours`. -/
def TimeDelta.hours (hours : Int) : Option TimeDelta :=
  (TimeDelta.new (hours * SECS_PER_HOUR) 0).toOption

/-- `TimeDelta::minutes`. -/
def TimeDelta.minutes (minutes : Int) : Option TimeDelta :=
  (TimeDelta.new (minutes * SECS_PER_MINUTE) 0).toOption

/-- `TimeDelta::seconds`. -/
def TimeDelta.seconds (seconds : Int) : Option TimeDelta :=
  (TimeDelta.new seconds 0).toOption

/-- `TimeDelta::milliseconds`; `div_mod_floor_64` is `div_euclid`/`rem_euclid`,
i.e. `Int.ediv`/`Int.emod`. -/
def TimeDelta.milliseconds (milliseconds : Int) : Except Error TimeDelta :=
  if milliseconds < -i64MAX then .error .OutOfRange
  else
    let secs := milliseconds / MILLIS_PER_SEC
    let millis := milliseconds % MILLIS_PER_SEC
    .ok ⟨secs, millis * NANOS_PER_MILLI⟩

/-- `TimeDelta::microseconds` (infallible). -/
def TimeDelta.microseconds (microseconds : Int) : TimeDelta :=
  let secs := microseconds / MICROS_PER_SEC
  let micros := microseconds % MICROS_PER_SEC
  ⟨secs, micros * NANOS_PER_MICRO⟩

/-- `TimeDelta::nanoseconds` (infallible). -/
def TimeDelta.nanoseconds (nanos : Int) : TimeDelta :=
  ⟨nanos / NANOS_PER_SEC, nanos % NANOS_PER_SEC⟩

/-- `TimeDelta::num_seconds`: whole seconds, truncated toward zero. -/
def TimeDelta.num_seconds (d : TimeDelta) : Int :=
  if d.secs < 0 ∧ d.nanos > 0 then d.secs + 1 else d.secs

/-- `TimeDelta::subsec_nanos`. -/
def TimeDelta.subsec_nanos (d : TimeDelta) : Int :=
  if d.secs < 0 ∧ d.nanos > 0 then d.nanos - NANOS_PER_SEC else d.nanos

/-- `TimeDelta::num_milliseconds`. -/
def TimeDelta.num_milliseconds (d : TimeDelta) : Int :=
  d.num_seconds * MILLIS_PER_SEC + (d.subsec_nanos).tdiv NANOS_PER_MILLI

/-- `TimeDelta::checked_add`. -/
def TimeDelta.checked_add (d rhs : TimeDelta) : Option TimeDelta :=
  let secs := d.secs + rhs.secs
  let nanos := d.nanos + rhs.nanos
  let p := if nanos ≥ NANOS_PER_SEC then (secs + 1, nanos - NANOS_PER_SEC) else (secs, nanos)
  (TimeDelta.new p.1 (u32cast p.2)).toOption

/-- `TimeDelta::checked_sub`. -/
def TimeDelta.checked_sub (d rhs : TimeDelta) : Option TimeDelta :=
  let secs := d.secs - rhs.secs
  let nanos := d.nanos - rhs.nanos
  let p := if nanos < 0 then (secs - 1, nanos + NANOS_PER_SEC) else (secs, nanos)
  (TimeDelta.new p.1 (u32cast p.2)).toOption

/-- `TimeDelta::abs`. -/
def TimeDelta.abs (d : TimeDelta) : TimeDelta :=
  if d.secs < 0 ∧ d.nanos ≠ 0 then ⟨|d.secs + 1|, NANOS_PER_SEC - d.nanos⟩
  else ⟨|d.secs|, d.nanos⟩

/-- `TimeDelta::neg` (both the `const fn` and the `Neg` impl use this body). -/
def TimeDelta.neg (d : TimeDelta) : TimeDelta :=
  if d.nanos = 0 then ⟨-d.secs - 0, 0⟩
  else ⟨-d.secs - 1, NANOS_PER_SEC - d.nanos⟩

/-- `std::time::Duration`: unsigned seconds plus a sub-second nanosecond count
(its own invariant is `subsec_nanos < 1_000_000_000`). -/
structure StdDuration where
  as_secs : Nat
  subsec_nanos : Nat
deriving DecidableEq, Repr

/-- `TimeDelta::from_std`. The source's error type `OutOfRangeError` carries no
information; `Error.OutOfRange` stands in for it. -/
def TimeDelta.from_std (duration : StdDuration) : Except Error TimeDelta :=
  if (duration.as_secs : Int) > TimeDelta.MAX.secs then .error .OutOfRange
  else
    match TimeDelta.new (duration.as_secs : Int) duration.subsec_nanos with
    | .ok d => .ok d
    | .error _ => .error .OutOfRange

/-- `impl Mul<i32> for TimeDelta`.  The `total_nanos` product of an `i32`
nanosecond field and an `i32` scalar never exceeds `i64` ("Multiply
nanoseconds as i64, because it cannot overflow that way"), but the `secs`
products can wrap, hence `wrap64`. -/
def TimeDelta.mul (d : TimeDelta) (rhs : Int) : TimeDelta :=
  let total_nanos := d.nanos * rhs
  let extra_secs := total_nanos.ediv NANOS_PER_SEC
  let nanos := total_nanos.emod NANOS_PER_SEC
  let secs := wrap64 (wrap64 (d.secs * rhs) + extra_secs)
  ⟨secs, nanos⟩

/-- `impl Div<i32> for TimeDelta`.  Rust `/` on signed integers truncates
toward zero (`Int.tdiv`).  The two sequential `if` statements of the source
normalize at most one of the two directions, so they are equivalent to the
`if`/`else if` chain below. -/
def TimeDelta.div (d : TimeDelta) (rhs : Int) : TimeDelta :=
  let secs := d.secs.tdiv rhs
  let carry := d.secs - secs * rhs
  let extra_nanos := (carry * NANOS_PER_SEC).tdiv rhs
  let nanos := d.nanos.tdiv rhs + extra_nanos
  if nanos ≥ NANOS_PER_SEC then ⟨secs + 1, nanos - NANOS_PER_SEC⟩
  else if nanos < 0 then ⟨secs - 1, nanos + NANOS_PER_SEC⟩
  else ⟨secs, nanos⟩

/-- The exact value of a `TimeDelta` in nanoseconds. -/
def TimeDelta.totalNanos (d : TimeDelta) : Int :=
  d.secs * NANOS_PER_SEC + d.nanos

/-- The representation invariant of `TimeDelta`: normalized nanosecond field
and encoded value within `[MIN, MAX]` (±`i64::MAX` milliseconds). -/
def TimeDelta.inv (d : TimeDelta) : Prop :=
  0 ≤ d.nanos ∧ d.nanos < NANOS_PER_SEC ∧
    -(i64MAX * NANOS_PER_MILLI) ≤ d.totalNanos ∧ d.totalNanos ≤ i64MAX * NANOS_PER_MILLI

instance (d : TimeDelta) : Decidable (TimeDelta.inv d) := by
  unfold TimeDelta.inv
  infer_instance

/-- The strict order underlying `#[derive(PartialOrd, Ord)]` on
`TimeDelta { secs, nanos }`: lexicographic on the fields in declaration order. -/
def TimeDelta.lt (a b : TimeDelta) : Prop :=
  a.secs < b.secs ∨ (a.secs = b.secs ∧ a.nanos < b.nanos)

instance (a b : TimeDelta) : Decidable (TimeDelta.lt a b) := by
  unfold TimeDelta.lt
  infer_instance

/-! ## `CalendarDuration` (`src/calendar_duration.rs`) -/

/-- The packed accurate-time word (`MinutesAndSeconds`, a `NonZeroU64`):
  - seconds-only:                 `seconds << 2 | 0b10`
  - minutes and up to 60 seconds: `minutes << 8 | seconds << 2 | 0b11`
Bit operations are rendered arithmetically (see the header). -/
structure MinutesAndSeconds where
  val : Nat
deriving DecidableEq, Repr

/-- `MinutesAndSeconds::from_seconds`: fails for `secs >= 1 << 62`, else packs
`secs << 2 | 0b10`. -/
def MinutesAndSeconds.from_seconds (secs : Nat) : Option MinutesAndSeconds :=
  if secs ≥ 4611686018427387904 then none
  else some ⟨secs * 4 + 2⟩

/-- `MinutesAndSeconds::from_minutes_and_seconds`: fails for `mins >= 1 << 56`
or `secs > 60`, else packs `mins << 8 | secs << 2 | ((mins > 0) as u64) | 0b10`
(the `(mins > 0)` tag makes a value without minutes encode identically to
`from_seconds`). -/
def MinutesAndSeconds.from_minutes_and_seconds (mins secs : Nat) : Option MinutesAndSeconds :=
  if mins ≥ 72057594037927936 ∨ secs > 60 then none
  else some ⟨mins * 256 + secs * 4 + (if mins > 0 then 1 else 0) + 2⟩

/-- `MinutesAndSeconds::mins_and_secs`: tag test `value & 0b01 == 0`; decode
`(0, value >> 2)` or `(value >> 8, (value >> 2) & 0b11_1111)`. -/
def MinutesAndSeconds.mins_and_secs (m : MinutesAndSeconds) : Nat × Nat :=
  if m.val % 2 = 0 then (0, m.val / 4)
  else (m.val / 256, m.val / 4 % 64)

/-- `CalendarDuration`: months, days, the packed accurate-time word, nanos. -/
structure CalendarDuration where
  months : Nat
  days : Nat
  mins_and_secs : MinutesAndSeconds
  nanos : Nat
deriving DecidableEq, Repr

/-- `CalendarDuration::new()`: all components zero; the accurate-time word is
`expect(MinutesAndSeconds::from_seconds(0), "in range")`, which evaluates to
the packed word `0b10` (see `from_seconds_zero` below). -/
def CalendarDuration.new : CalendarDuration := ⟨0, 0, ⟨2⟩, 0⟩

/-- `CalendarDuration::mins_and_secs()`: decode of the packed word. -/
def CalendarDuration.minsSecs (cd : CalendarDuration) : Nat × Nat :=
  cd.mins_and_secs.mins_and_secs

/-- `CalendarDuration::with_hms`: `hours.checked_mul(60)?.checked_add(minutes)?`
on `u64`, then the minutes+seconds encoder. -/
def CalendarDuration.with_hms (cd : CalendarDuration) (hours minutes seconds : Nat) :
    Option CalendarDuration :=
  if hours * 60 ≥ 18446744073709551616 then none
  else if hours * 60 + minutes ≥ 18446744073709551616 then none
  else
    match MinutesAndSeconds.from_minutes_and_seconds (hours * 60 + minutes) seconds with
    | none => none
    | some ms => some { cd with mins_and_secs := ms }

/-- `CalendarDuration::with_seconds`. -/
def CalendarDuration.with_seconds (cd : CalendarDuration) (seconds : Nat) :
    Option CalendarDuration :=
  match MinutesAndSeconds.from_seconds seconds with
  | none => none
  | some ms => some { cd with mins_and_secs := ms }

/-- `CalendarDuration::with_nanos`. -/
def CalendarDuration.with_nanos (cd : CalendarDuration) (nanos : Nat) :
    Option CalendarDuration :=
  if nanos ≥ 1000000000 then none
  else some { cd with nanos := nanos }

/-- `CalendarDuration::is_zero()`: decodes the packed word. -/
def CalendarDuration.is_zero (cd : CalendarDuration) : Bool :=
  let p := cd.mins_and_secs.mins_and_secs
  cd.months == 0 && cd.days == 0 && p.1 == 0 && p.2 == 0 && cd.nanos == 0

/-! ## `NaiveDateTime::signed_duration_since` (`src/naive/datetime/mod.rs`)

`NaiveDate` and `NaiveTime` are collaborators whose sources are not part of
the covered files; they are modelled from the spec (§3, §4.3, §6 and the
glossary). -/

/-- Modelled from the spec: the calendar-date collaborator `NaiveDate` (its
implementation is not among the covered sources).  A date is represented by
its proleptic-Gregorian day number relative to a fixed epoch; the documented
year range (±262,143 years) bounds the day number by `262,144 * 366` days in
magnitude. -/
structure NaiveDate where
  dayNumber : Int
deriving DecidableEq, Repr

/-- The day-number bound implied by the spec's ±262,143-year range. -/
def NaiveDate.valid (d : NaiveDate) : Prop :=
  -95944704 ≤ d.dayNumber ∧ d.dayNumber ≤ 95944704

instance (d : NaiveDate) : Decidable (NaiveDate.valid d) := by
  unfold NaiveDate.valid
  infer_instance

/-- Modelled from the spec: `NaiveDate::signed_duration_since` produces "the
date-level day-difference (converted to a duration)" (§4.3). -/
def NaiveDate.signed_duration_since (d rhs : NaiveDate) : TimeDelta :=
  ⟨(d.dayNumber - rhs.dayNumber) * SECS_PER_DAY, 0⟩

/-- Modelled from the spec: the time-of-day collaborator `NaiveTime` (its
implementation is not among the covered sources): a second-of-day in
`[0, 86_400)` plus a nanosecond fraction in `[0, 2_000_000_000)`, where values
`≥ 1_000_000_000` encode a leap second (§3, §6). -/
structure NaiveTime where
  secs : Int
  frac : Int
deriving DecidableEq, Repr

def NaiveTime.valid (t : NaiveTime) : Prop :=
  0 ≤ t.secs ∧ t.secs < 86400 ∧ 0 ≤ t.frac ∧ t.frac < 2000000000

instance (t : NaiveTime) : Decidable (NaiveTime.valid t) := by
  unfold NaiveTime.valid
  infer_instance

/-- Modelled from the spec: `NaiveTime::signed_duration_since`.  Per §4.3 and
the glossary, a leap second encoded by an operand is treated as real, and leap
seconds are otherwise assumed never to have happened: when the operands lie in
different seconds-of-day and the earlier one encodes a leap second, that whole
extra second separates them, giving a ±1 second adjustment.  The difference is
returned in normalized `TimeDelta` form. -/
def NaiveTime.signed_duration_since (t rhs : NaiveTime) : TimeDelta :=
  let adjust : Int :=
    if t.secs > rhs.secs ∧ rhs.frac ≥ 1000000000 then 1
    else if t.secs < rhs.secs ∧ t.frac ≥ 1000000000 then -1
    else 0
  let total := (t.secs - rhs.secs + adjust) * NANOS_PER_SEC + (t.frac - rhs.frac)
  ⟨total / NANOS_PER_SEC, total % NANOS_PER_SEC⟩

/-- `NaiveDateTime` (`src/naive/datetime/mod.rs`): a date paired with a time. -/
structure NaiveDateTime where
  date : NaiveDate
  time : NaiveTime
deriving DecidableEq, Repr

def NaiveDateTime.valid (dt : NaiveDateTime) : Prop :=
  dt.date.valid ∧ dt.time.valid

instance (dt : NaiveDateTime) : Decidable (NaiveDateTime.valid dt) := by
  unfold NaiveDateTime.valid
  infer_instance

/-- `NaiveDateTime::signed_duration_since`: the date-difference `checked_add`
the time-difference.  The source asserts the addition is "always in range"
with `expect!`; the assertion site is modelled by the `Option`. -/
def NaiveDateTime.signed_duration_since (dt rhs : NaiveDateTime) : Option TimeDelta :=
  (dt.date.signed_duration_since rhs.date).checked_add
    (dt.time.signed_duration_since rhs.time)

/-! ## Arithmetic helper lemmas about truncating division -/

theorem int_neg_tmod (a b : Int) : (-a).tmod b = -(a.tmod b) := by
  rw [Int.tmod_def, Int.tmod_def, Int.neg_tdiv]
  ring

theorem int_tmod_abs_lt (a b : Int) (hb : b ≠ 0) : |a.tmod b| < |b| := by
  have key : ∀ x : Int, 0 ≤ x → |x.tmod b| < |b| := by
    intro x hx
    have h1 : 0 ≤ x.tmod b := Int.tmod_nonneg b hx
    have h2 : x.tmod b < |b| := by
      have habs : x.tmod |b| = x.tmod b := by
        rcases abs_choice b with h | h
        · rw [h]
        · rw [h, Int.tmod_neg]
      rw [← habs]
      exact Int.tmod_lt_of_pos x (abs_pos.mpr hb)
    rw [abs_of_nonneg h1]
    exact h2
  rcases le_or_lt 0 a with ha | ha
  · exact key a ha
  · have hrw : a = -(-a) := by ring
    rw [hrw, int_neg_tmod, abs_neg]
    exact key (-a) (by omega)

theorem int_tdiv_abs_mul_le (a b : Int) : |a.tdiv b| * |b| ≤ |a| := by
  rw [Int.abs_eq_natAbs, Int.abs_eq_natAbs, Int.abs_eq_natAbs, Int.natAbs_tdiv]
  exact_mod_cast Nat.div_mul_le_self a.natAbs b.natAbs

theorem int_tdiv_mul_eq_sub_tmod (a b : Int) : a.tdiv b * b = a - a.tmod b := by
  have h := Int.tdiv_add_tmod a b
  linarith [h]

/-! ## Basic facts about the `TimeDelta` representation -/

theorem TimeDelta.MIN_eq : TimeDelta.MIN = ⟨-9223372036854776, 193000000⟩ := by decide

theorem TimeDelta.MAX_eq : TimeDelta.MAX = ⟨9223372036854775, 807000000⟩ := by decide

/-- Closed form of `TimeDelta::new`: the compound `(secs, nanos)` comparison
against `MIN`/`MAX` is exactly a range check on the value in nanoseconds. -/
theorem TimeDelta.new_spec (secs : Int) (nanos : Nat) :
    TimeDelta.new secs nanos =
      if (nanos : Int) ≥ 1000000000 then .error Error.InvalidArgument
      else if secs * NANOS_PER_SEC + nanos < -(i64MAX * NANOS_PER_MILLI) ∨
          i64MAX * NANOS_PER_MILLI < secs * NANOS_PER_SEC + nanos then .error Error.OutOfRange
      else .ok ⟨secs, (nanos : Int)⟩ := by
  unfold TimeDelta.new
  by_cases h : (nanos : Int) ≥ 1000000000
  · rw [if_pos h, if_pos h]
  · rw [if_neg h, if_neg h]
    have hiff : (secs < TimeDelta.MIN.secs ∨ secs > TimeDelta.MAX.secs
        ∨ (secs = TimeDelta.MAX.secs ∧ (nanos : Int) > TimeDelta.MAX.nanos)
        ∨ (secs = TimeDelta.MIN.secs ∧ (nanos : Int) < TimeDelta.MIN.nanos)) ↔
        (secs * NANOS_PER_SEC + nanos < -(i64MAX * NANOS_PER_MILLI) ∨
          i64MAX * NANOS_PER_MILLI < secs * NANOS_PER_SEC + nanos) := by
      rw [TimeDelta.MIN_eq, TimeDelta.MAX_eq]
      show (_ ∨ _ ∨ _ ∨ _) ↔ _
      unfold NANOS_PER_SEC i64MAX NANOS_PER_MILLI
      dsimp only
      omega
    exact if_congr hiff rfl rfl

theorem TimeDelta.totalNanos_inj {a b : TimeDelta}
    (ha0 : 0 ≤ a.nanos) (ha1 : a.nanos < NANOS_PER_SEC)
    (hb0 : 0 ≤ b.nanos) (hb1 : b.nanos < NANOS_PER_SEC)
    (h : a.totalNanos = b.totalNanos) : a = b := by
  obtain ⟨as, an⟩ := a
  obtain ⟨bs, bn⟩ := b
  simp only [TimeDelta.totalNanos, NANOS_PER_SEC, TimeDelta.mk.injEq] at *
  omega

/-- Any value that `TimeDelta::new` accepts satisfies the representation invariant. -/
theorem TimeDelta.new_ok_inv {secs : Int} {nanos : Nat} {d : TimeDelta}
    (h : TimeDelta.new secs nanos = .ok d) : d.inv := by
  rw [TimeDelta.new_spec] at h
  split at h
  · exact absurd h (by simp)
  next h1 =>
    split at h
    next h2 => exact absurd h (by simp)
    next h2 =>
      cases h
      unfold TimeDelta.inv TimeDelta.totalNanos NANOS_PER_SEC i64MAX NANOS_PER_MILLI at *
      dsimp only
      refine ⟨by omega, by omega, by omega, by omega⟩

theorem u32cast_int_eq {x : Int} (h0 : 0 ≤ x) (h1 : x < 4294967296) :
    ((u32cast x : Nat) : Int) = x := by
  unfold u32cast
  rw [Int.emod_eq_of_lt h0 h1, Int.toNat_of_nonneg h0]

theorem except_ok_toOption {α : Type} (x : α) :
    (Except.ok x : Except Error α).toOption = some x := rfl

theorem except_error_toOption {α : Type} (e : Error) :
    (Except.error e : Except Error α).toOption = (none : Option α) := rfl

/-- Closed form of `TimeDelta::checked_add` on invariant-satisfying operands:
it succeeds exactly when the exact sum stays within `[MIN, MAX]`, and then
returns the normalized representation of the exact sum. -/
theorem TimeDelta.checked_add_eq (a b : TimeDelta) (ha : a.inv) (hb : b.inv) :
    a.checked_add b =
      if -(i64MAX * NANOS_PER_MILLI) ≤ a.totalNanos + b.totalNanos ∧
          a.totalNanos + b.totalNanos ≤ i64MAX * NANOS_PER_MILLI then
        some ⟨(a.totalNanos + b.totalNanos) / NANOS_PER_SEC,
              (a.totalNanos + b.totalNanos) % NANOS_PER_SEC⟩
      else none := by
  obtain ⟨h0a, h1a, h2a, h3a⟩ := ha
  obtain ⟨h0b, h1b, h2b, h3b⟩ := hb
  unfold TimeDelta.totalNanos at *
  simp only [NANOS_PER_SEC, NANOS_PER_MILLI, i64MAX] at *
  simp only [TimeDelta.checked_add, NANOS_PER_SEC]
  by_cases hc : a.nanos + b.nanos ≥ 1000000000
  · simp only [if_pos hc]
    rw [TimeDelta.new_spec]
    simp only [NANOS_PER_SEC, NANOS_PER_MILLI, i64MAX]
    rw [u32cast_int_eq (by omega) (by omega)]
    split_ifs with g1 g2 g3 <;>
      first
        | (exfalso; omega)
        | (simp only [except_error_toOption])
        | (simp only [except_ok_toOption, Option.some.injEq, TimeDelta.mk.injEq]
           constructor <;> omega)
  · simp only [if_neg hc]
    rw [TimeDelta.new_spec]
    simp only [NANOS_PER_SEC, NANOS_PER_MILLI, i64MAX]
    rw [u32cast_int_eq (by omega) (by omega)]
    split_ifs with g1 g2 g3 <;>
      first
        | (exfalso; omega)
        | (simp only [except_error_toOption])
        | (simp only [except_ok_toOption, Option.some.injEq, TimeDelta.mk.injEq]
           constructor <;> omega)

/-- Closed form of `TimeDelta::checked_sub`, analogous to `checked_add_eq`. -/
theorem TimeDelta.checked_sub_eq (a b : TimeDelta) (ha : a.inv) (hb : b.inv) :
    a.checked_sub b =
      if -(i64MAX * NANOS_PER_MILLI) ≤ a.totalNanos - b.totalNanos ∧
          a.totalNanos - b.totalNanos ≤ i64MAX * NANOS_PER_MILLI then
        some ⟨(a.totalNanos - b.totalNanos) / NANOS_PER_SEC,
              (a.totalNanos - b.totalNanos) % NANOS_PER_SEC⟩
      else none := by
  obtain ⟨h0a, h1a, h2a, h3a⟩ := ha
  obtain ⟨h0b, h1b, h2b, h3b⟩ := hb
  unfold TimeDelta.totalNanos at *
  simp only [NANOS_PER_SEC, NANOS_PER_MILLI, i64MAX] at *
  simp only [TimeDelta.checked_sub, NANOS_PER_SEC]
  by_cases hc : a.nanos - b.nanos < 0
  · simp only [if_pos hc]
    rw [TimeDelta.new_spec]
    simp only [NANOS_PER_SEC, NANOS_PER_MILLI, i64MAX]
    rw [u32cast_int_eq (by omega) (by omega)]
    split_ifs with g1 g2 g3 <;>
      first
        | (exfalso; omega)
        | (simp only [except_error_toOption])
        | (simp only [except_ok_toOption, Option.some.injEq, TimeDelta.mk.injEq]
           constructor <;> omega)
  · simp only [if_neg hc]
    rw [TimeDelta.new_spec]
    simp only [NANOS_PER_SEC, NANOS_PER_MILLI, i64MAX]
    rw [u32cast_int_eq (by omega) (by omega)]
    split_ifs with g1 g2 g3 <;>
      first
        | (exfalso; omega)
        | (simp only [except_error_toOption])
        | (simp only [except_ok_toOption, Option.some.injEq, TimeDelta.mk.injEq]
           constructor <;> omega)

/-- Negation flips the exact value. -/
theorem TimeDelta.neg_totalNanos (d : TimeDelta) : d.neg.totalNanos = -d.totalNanos := by
  unfold TimeDelta.totalNanos TimeDelta.neg NANOS_PER_SEC
  split_ifs with h <;> dsimp only <;> omega

/-- Negation preserves the representation invariant. -/
theorem TimeDelta.neg_inv {d : TimeDelta} (hd : d.inv) : d.neg.inv := by
  obtain ⟨h0, h1, h2, h3⟩ := hd
  refine ⟨?_, ?_, ?_, ?_⟩ <;>
    first
      | (rw [TimeDelta.neg_totalNanos]; omega)
      | (unfold TimeDelta.neg NANOS_PER_SEC at *
         split_ifs with h <;> dsimp only <;> omega)

/-- `abs` computes the absolute exact value, in normalized form. -/
theorem TimeDelta.abs_spec (d : TimeDelta) (h0 : 0 ≤ d.nanos) (h1 : d.nanos < NANOS_PER_SEC) :
    d.abs.totalNanos = |d.totalNanos| ∧ 0 ≤ d.abs.nanos ∧ d.abs.nanos < NANOS_PER_SEC := by
  obtain ⟨ds, dn⟩ := d
  unfold TimeDelta.abs TimeDelta.totalNanos NANOS_PER_SEC at *
  dsimp only at *
  split_ifs with h <;>
    (dsimp only
     simp only [Int.abs_eq_natAbs]
     refine ⟨by omega, by omega, by omega⟩)

/-- Core arithmetic of `impl Div<i32>`: writing `q = s.tdiv k`,
`carry = s - q * k`, `extra = (carry * 1e9).tdiv k` and
`n1 = n.tdiv k + extra`, the pre-normalization value `q * 1e9 + n1` is within
`2 * |k| - 2` of the dividend's exact value after multiplying back by `k`
(each truncating division discards strictly less than `|k|` units), and the
pre-normalization nanosecond field `n1` lies strictly within `±1e9`. -/
theorem div_core (s n k : Int) (hk : k ≠ 0) (h0 : 0 ≤ n) (h1 : n < 1000000000) :
    |(s.tdiv k * 1000000000 + (n.tdiv k + ((s - s.tdiv k * k) * 1000000000).tdiv k)) * k
      - (s * 1000000000 + n)| ≤ 2 * |k| - 2 ∧
    (-1000000000 < n.tdiv k + ((s - s.tdiv k * k) * 1000000000).tdiv k ∧
      n.tdiv k + ((s - s.tdiv k * k) * 1000000000).tdiv k < 1000000000) := by
  have hkpos : (0:Int) < |k| := abs_pos.mpr hk
  have hcarry : s - s.tdiv k * k = s.tmod k := by
    rw [Int.tmod_def]
    ring
  rw [hcarry]
  have hclt : |s.tmod k| < |k| := int_tmod_abs_lt s k hk
  have hnm : |n.tmod k| < |k| := int_tmod_abs_lt n k hk
  have e1 : n.tdiv k * k = n - n.tmod k := int_tdiv_mul_eq_sub_tmod n k
  have e2 : (s.tmod k * 1000000000).tdiv k * k
      = s.tmod k * 1000000000 - (s.tmod k * 1000000000).tmod k :=
    int_tdiv_mul_eq_sub_tmod _ k
  have e3 : s.tdiv k * k = s - s.tmod k := int_tdiv_mul_eq_sub_tmod s k
  have hmm : |(s.tmod k * 1000000000).tmod k| < |k| := int_tmod_abs_lt _ k hk
  constructor
  · have key : (s.tdiv k * 1000000000 + (n.tdiv k + (s.tmod k * 1000000000).tdiv k)) * k
        - (s * 1000000000 + n) = -(n.tmod k) - (s.tmod k * 1000000000).tmod k := by
      have expand : (s.tdiv k * 1000000000 + (n.tdiv k + (s.tmod k * 1000000000).tdiv k)) * k
          = (s.tdiv k * k) * 1000000000 + n.tdiv k * k + (s.tmod k * 1000000000).tdiv k * k := by
        ring
      rw [expand, e1, e2, e3]
      ring
    rw [key]
    have htri : |-(n.tmod k) - (s.tmod k * 1000000000).tmod k|
        ≤ |n.tmod k| + |(s.tmod k * 1000000000).tmod k| := by
      have h := abs_add (-(n.tmod k)) (-((s.tmod k * 1000000000).tmod k))
      simp only [abs_neg] at h
      have heq : -(n.tmod k) - (s.tmod k * 1000000000).tmod k
          = -(n.tmod k) + -((s.tmod k * 1000000000).tmod k) := by ring
      rw [heq]
      exact h
    omega
  · have hA : |n.tdiv k| * |k| ≤ |n| := int_tdiv_abs_mul_le n k
    have hB : |(s.tmod k * 1000000000).tdiv k| * |k| ≤ |s.tmod k| * 1000000000 := by
      have h := int_tdiv_abs_mul_le (s.tmod k * 1000000000) k
      rwa [abs_mul, abs_of_nonneg (by norm_num : (0:Int) ≤ 1000000000)] at h
    have hBk : |s.tmod k| * 1000000000 ≤ (|k| - 1) * 1000000000 :=
      mul_le_mul_of_nonneg_right (by omega) (by norm_num)
    have hN : |n| ≤ 999999999 := by
      rw [abs_of_nonneg h0]
      omega
    have hdist : (|n.tdiv k| + |(s.tmod k * 1000000000).tdiv k|) * |k|
        = |n.tdiv k| * |k| + |(s.tmod k * 1000000000).tdiv k| * |k| := by
      ring
    have hsum : (|n.tdiv k| + |(s.tmod k * 1000000000).tdiv k|) * |k| < 1000000000 * |k| := by
      rw [hdist]
      linarith
    have habs : |n.tdiv k + (s.tmod k * 1000000000).tdiv k|
        ≤ |n.tdiv k| + |(s.tmod k * 1000000000).tdiv k| := abs_add _ _
    have hfin : |n.tdiv k + (s.tmod k * 1000000000).tdiv k| < 1000000000 :=
      lt_of_mul_lt_mul_right
        (lt_of_le_of_lt (mul_le_mul_of_nonneg_right habs (le_of_lt hkpos)) hsum)
        (le_of_lt hkpos)
    exact abs_lt.mp hfin

/-- Full specification of `impl Div<i32>` on invariant-satisfying input: the
result is normalized, stays within `[MIN, MAX]`, and multiplying its exact
value back by the divisor lands within `2 * |k| - 2` nanoseconds of the
dividend's exact value. -/
theorem TimeDelta.div_spec (d : TimeDelta) (k : Int) (hd : d.inv) (hk : k ≠ 0)
    (hk1 : -2147483648 ≤ k) (hk2 : k < 2147483648) :
    (d.div k).inv ∧ |(d.div k).totalNanos * k - d.totalNanos| ≤ 2 * |k| - 2 := by
  obtain ⟨h0, h1, h2, h3⟩ := hd
  unfold TimeDelta.inv TimeDelta.totalNanos NANOS_PER_SEC i64MAX NANOS_PER_MILLI at *
  have hcore := div_core d.secs d.nanos k hk h0 h1
  have hkpos : (0:Int) < |k| := abs_pos.mpr hk
  have hK1 : 1 ≤ |k| := by omega
  have hKb : |k| ≤ 2147483648 := abs_le.mpr ⟨hk1, by omega⟩
  -- bound on the exact value of the result
  have hS : |d.secs * 1000000000 + d.nanos| ≤ 9223372036854775807000000 :=
    abs_le.mpr ⟨by omega, by omega⟩
  have habs_total : |d.secs.tdiv k * 1000000000
        + (d.nanos.tdiv k + ((d.secs - d.secs.tdiv k * k) * 1000000000).tdiv k)| * |k|
      ≤ 9223372036854775807000000 + 2 * |k| - 2 := by
    have h6 : |(d.secs.tdiv k * 1000000000
          + (d.nanos.tdiv k + ((d.secs - d.secs.tdiv k * k) * 1000000000).tdiv k)) * k|
        ≤ |(d.secs.tdiv k * 1000000000
            + (d.nanos.tdiv k + ((d.secs - d.secs.tdiv k * k) * 1000000000).tdiv k)) * k
          - (d.secs * 1000000000 + d.nanos)| + |d.secs * 1000000000 + d.nanos| := by
      have h7 := abs_add
        ((d.secs.tdiv k * 1000000000
          + (d.nanos.tdiv k + ((d.secs - d.secs.tdiv k * k) * 1000000000).tdiv k)) * k
          - (d.secs * 1000000000 + d.nanos))
        (d.secs * 1000000000 + d.nanos)
      calc |(d.secs.tdiv k * 1000000000
            + (d.nanos.tdiv k + ((d.secs - d.secs.tdiv k * k) * 1000000000).tdiv k)) * k|
          = |(d.secs.tdiv k * 1000000000
              + (d.nanos.tdiv k + ((d.secs - d.secs.tdiv k * k) * 1000000000).tdiv k)) * k
            - (d.secs * 1000000000 + d.nanos) + (d.secs * 1000000000 + d.nanos)| := by
            ring_nf
        _ ≤ _ := h7
    rw [abs_mul] at h6
    linarith [hcore.1]
  have hTbound : -9223372036854775807000000
        ≤ d.secs.tdiv k * 1000000000
          + (d.nanos.tdiv k + ((d.secs - d.secs.tdiv k * k) * 1000000000).tdiv k) ∧
      d.secs.tdiv k * 1000000000
          + (d.nanos.tdiv k + ((d.secs - d.secs.tdiv k * k) * 1000000000).tdiv k)
        ≤ 9223372036854775807000000 := by
    have habs2 : |d.secs.tdiv k * 1000000000
          + (d.nanos.tdiv k + ((d.secs - d.secs.tdiv k * k) * 1000000000).tdiv k)|
        ≤ 9223372036854775807000000 := by
      by_contra hcon
      push_neg at hcon
      have hstep : (9223372036854775807000000 + 1) * |k|
          ≤ |d.secs.tdiv k * 1000000000
            + (d.nanos.tdiv k + ((d.secs - d.secs.tdiv k * k) * 1000000000).tdiv k)| * |k| :=
        mul_le_mul_of_nonneg_right (by omega) (abs_nonneg k)
      have hchain := le_trans hstep habs_total
      omega
    exact abs_le.mp habs2
  simp only [TimeDelta.div, NANOS_PER_SEC]
  split_ifs with c1 c2
  · exfalso
    omega
  · refine ⟨⟨?_, ?_, ?_, ?_⟩, ?_⟩ <;>
      first
        | (dsimp only; omega)
        | (dsimp only
           rw [show (d.secs.tdiv k - 1) * 1000000000
               + (d.nanos.tdiv k + ((d.secs - d.secs.tdiv k * k) * 1000000000).tdiv k
                  + 1000000000)
               = d.secs.tdiv k * 1000000000
                 + (d.nanos.tdiv k + ((d.secs - d.secs.tdiv k * k) * 1000000000).tdiv k)
             from by ring]
           omega)
  · refine ⟨⟨?_, ?_, ?_, ?_⟩, ?_⟩ <;> (dsimp only; omega)

/-! ## Claim theorems -/

/-- **C2**: for every pair `(secs, nanos)` with `0 ≤ nanos < 1_000_000_000`
whose combined value lies within `[MIN, MAX]`, `TimeDelta::new(secs, nanos)`
succeeds, and the accessors of the resulting value reconstruct the input
exactly: `subsec_nanos() + num_seconds() * 1_000_000_000 =
secs * 1_000_000_000 + nanos`, with `num_seconds()` truncated toward zero
(returning `secs + 1` when `secs < 0` and `nanos > 0`). -/
theorem c2_new_accessor_roundtrip (secs : Int) (nanos : Nat)
    (hn : (nanos : Int) < 1000000000)
    (hlo : -(i64MAX * NANOS_PER_MILLI) ≤ secs * NANOS_PER_SEC + nanos)
    (hhi : secs * NANOS_PER_SEC + nanos ≤ i64MAX * NANOS_PER_MILLI) :
    ∃ d : TimeDelta, TimeDelta.new secs nanos = .ok d ∧
      d.subsec_nanos + d.num_seconds * NANOS_PER_SEC = secs * NANOS_PER_SEC + nanos ∧
      d.num_seconds = (if secs < 0 ∧ (nanos : Int) > 0 then secs + 1 else secs) := by
  unfold NANOS_PER_SEC i64MAX NANOS_PER_MILLI at *
  refine ⟨⟨secs, (nanos : Int)⟩, ?_, ?_, ?_⟩
  · rw [TimeDelta.new_spec]
    unfold NANOS_PER_SEC i64MAX NANOS_PER_MILLI
    rw [if_neg (by omega), if_neg (by omega)]
  · unfold TimeDelta.subsec_nanos TimeDelta.num_seconds NANOS_PER_SEC
    dsimp only
    split_ifs <;> omega
  · unfold TimeDelta.num_seconds
    dsimp only

/-- Witness for C2 at `secs = -1`, `nanos = 500_000_000`. -/
theorem c2_witness :
    ∃ d : TimeDelta, TimeDelta.new (-1) 500000000 = .ok d ∧
      d.subsec_nanos + d.num_seconds * NANOS_PER_SEC =
        (-1) * NANOS_PER_SEC + ((500000000 : Nat) : Int) ∧
      d.num_seconds =
        (if (-1 : Int) < 0 ∧ (((500000000 : Nat) : Int)) > 0 then (-1 : Int) + 1 else -1) :=
  c2_new_accessor_roundtrip (-1) 500000000 (by decide) (by decide) (by decide)

/-- **C5**: on every representable `TimeDelta`, negation is an involution,
`abs` is negation-invariant, negation of a value with negative `secs` and
non-zero `nanos` is `⟨-(secs+1), NANOS_PER_SEC - nanos⟩`, negation preserves
the invariant (never overflows), and `-MIN = MAX`, `-MAX = MIN`. -/
theorem c5_neg_involution_abs (d : TimeDelta) (hd : d.inv) :
    d.neg.neg = d ∧
    d.abs = d.neg.abs ∧
    (d.secs < 0 ∧ d.nanos ≠ 0 → d.neg = ⟨-(d.secs + 1), NANOS_PER_SEC - d.nanos⟩) ∧
    d.neg.inv ∧
    TimeDelta.neg TimeDelta.MIN = TimeDelta.MAX ∧
    TimeDelta.neg TimeDelta.MAX = TimeDelta.MIN := by
  refine ⟨?_, ?_, ?_, TimeDelta.neg_inv hd, by decide, by decide⟩
  · exact TimeDelta.totalNanos_inj (TimeDelta.neg_inv (TimeDelta.neg_inv hd)).1
      (TimeDelta.neg_inv (TimeDelta.neg_inv hd)).2.1 hd.1 hd.2.1
      (by rw [TimeDelta.neg_totalNanos, TimeDelta.neg_totalNanos, neg_neg])
  · have hn := TimeDelta.neg_inv hd
    refine TimeDelta.totalNanos_inj (TimeDelta.abs_spec d hd.1 hd.2.1).2.1
      (TimeDelta.abs_spec d hd.1 hd.2.1).2.2
      (TimeDelta.abs_spec d.neg hn.1 hn.2.1).2.1
      (TimeDelta.abs_spec d.neg hn.1 hn.2.1).2.2 ?_
    rw [(TimeDelta.abs_spec d hd.1 hd.2.1).1, (TimeDelta.abs_spec d.neg hn.1 hn.2.1).1,
      TimeDelta.neg_totalNanos, abs_neg]
  · intro h
    obtain ⟨ds, dn⟩ := d
    obtain ⟨hs, hn0⟩ := h
    dsimp only at hs hn0 ⊢
    unfold TimeDelta.neg
    dsimp only
    rw [if_neg hn0]
    simp only [TimeDelta.mk.injEq]
    exact ⟨by omega, trivial⟩

/-- Witness for C5 at `d = ⟨-2, 700_000_000⟩`. -/
theorem c5_witness :
    (TimeDelta.neg (TimeDelta.neg ⟨-2, 700000000⟩)) = ⟨-2, 700000000⟩ ∧
    (TimeDelta.abs ⟨-2, 700000000⟩) = (TimeDelta.neg ⟨-2, 700000000⟩).abs ∧
    ((⟨-2, 700000000⟩ : TimeDelta).secs < 0 ∧ (⟨-2, 700000000⟩ : TimeDelta).nanos ≠ 0 →
      TimeDelta.neg ⟨-2, 700000000⟩ =
        ⟨-((⟨-2, 700000000⟩ : TimeDelta).secs + 1),
         NANOS_PER_SEC - (⟨-2, 700000000⟩ : TimeDelta).nanos⟩) ∧
    (TimeDelta.neg ⟨-2, 700000000⟩).inv ∧
    TimeDelta.neg TimeDelta.MIN = TimeDelta.MAX ∧
    TimeDelta.neg TimeDelta.MAX = TimeDelta.MIN :=
  c5_neg_involution_abs ⟨-2, 700000000⟩ (by decide)

/-- **C6**: `TimeDelta::milliseconds(ms)` fails with an out-of-range error
exactly when `ms < -i64::MAX` (so the single input `i64::MIN` fails, while
`i64::MAX` and `-i64::MAX` succeed), and on success decomposes `ms` by floor
division/modulo by 1000 into the normalized representation with
`0 ≤ nanos < NANOS_PER_SEC`; in particular `-1500 ms` gives
`secs = -2, nanos = 500_000_000`. -/
theorem c6_milliseconds_boundary (ms : Int) (hlo : i64MIN ≤ ms) (hhi : ms ≤ i64MAX) :
    ((∃ d, TimeDelta.milliseconds ms = .ok d) ↔ ¬ms < -i64MAX) ∧
    (TimeDelta.milliseconds ms = .error Error.OutOfRange ↔ ms < -i64MAX) ∧
    (∀ d, TimeDelta.milliseconds ms = .ok d →
      d.secs = ms / MILLIS_PER_SEC ∧ d.nanos = ms % MILLIS_PER_SEC * NANOS_PER_MILLI ∧
      0 ≤ d.nanos ∧ d.nanos < NANOS_PER_SEC ∧ d.totalNanos = ms * NANOS_PER_MILLI) ∧
    TimeDelta.milliseconds (-1500) = .ok ⟨-2, 500000000⟩ ∧
    TimeDelta.milliseconds i64MIN = .error Error.OutOfRange ∧
    TimeDelta.milliseconds i64MAX = .ok TimeDelta.MAX ∧
    TimeDelta.milliseconds (-i64MAX) = .ok TimeDelta.MIN := by
  refine ⟨?_, ?_, ?_, by decide, by decide, by decide, by decide⟩
  · unfold TimeDelta.milliseconds
    by_cases h : ms < -i64MAX
    · rw [if_pos h]
      refine iff_of_false ?_ (by omega)
      rintro ⟨d, hd⟩
      exact absurd hd (by simp)
    · rw [if_neg h]
      refine iff_of_true ?_ h
      exact ⟨_, rfl⟩
  · unfold TimeDelta.milliseconds
    by_cases h : ms < -i64MAX
    · rw [if_pos h]
      exact iff_of_true rfl h
    · rw [if_neg h]
      exact iff_of_false (by simp) h
  · unfold TimeDelta.milliseconds
    by_cases h : ms < -i64MAX
    · rw [if_pos h]
      intro d hd
      exact absurd hd (by simp)
    · rw [if_neg h]
      intro d hd
      injection hd with hd
      subst hd
      unfold TimeDelta.totalNanos MILLIS_PER_SEC NANOS_PER_MILLI NANOS_PER_SEC
      dsimp only
      refine ⟨rfl, rfl, by omega, by omega, by omega⟩

/-- Witness for C6 at `ms = -1500`. -/
theorem c6_witness :
    ((∃ d, TimeDelta.milliseconds (-1500) = .ok d) ↔ ¬(-1500 : Int) < -i64MAX) ∧
    (TimeDelta.milliseconds (-1500) = .error Error.OutOfRange ↔ (-1500 : Int) < -i64MAX) ∧
    (∀ d, TimeDelta.milliseconds (-1500) = .ok d →
      d.secs = (-1500 : Int) / MILLIS_PER_SEC ∧
      d.nanos = (-1500 : Int) % MILLIS_PER_SEC * NANOS_PER_MILLI ∧
      0 ≤ d.nanos ∧ d.nanos < NANOS_PER_SEC ∧ d.totalNanos = (-1500) * NANOS_PER_MILLI) ∧
    TimeDelta.milliseconds (-1500) = .ok ⟨-2, 500000000⟩ ∧
    TimeDelta.milliseconds i64MIN = .error Error.OutOfRange ∧
    TimeDelta.milliseconds i64MAX = .ok TimeDelta.MAX ∧
    TimeDelta.milliseconds (-i64MAX) = .ok TimeDelta.MIN :=
  c6_milliseconds_boundary (-1500) (by decide) (by decide)

/-- **C7**: `checked_add`/`checked_sub` return `None` exactly when the
mathematical sum/difference falls outside `[MIN, MAX]`, and otherwise return
the exact normalized sum/difference; in particular adding one millisecond to
`milliseconds(i64::MAX)` is `None`. -/
theorem c7_checked_add_sub_overflow (a b : TimeDelta) (ha : a.inv) (hb : b.inv) :
    (a.checked_add b = none ↔ (a.totalNanos + b.totalNanos < -(i64MAX * NANOS_PER_MILLI) ∨
        i64MAX * NANOS_PER_MILLI < a.totalNanos + b.totalNanos)) ∧
    (∀ c, a.checked_add b = some c → c.inv ∧ c.totalNanos = a.totalNanos + b.totalNanos) ∧
    (a.checked_sub b = none ↔ (a.totalNanos - b.totalNanos < -(i64MAX * NANOS_PER_MILLI) ∨
        i64MAX * NANOS_PER_MILLI < a.totalNanos - b.totalNanos)) ∧
    (∀ c, a.checked_sub b = some c → c.inv ∧ c.totalNanos = a.totalNanos - b.totalNanos) ∧
    (∀ m1 m2 : TimeDelta, TimeDelta.milliseconds i64MAX = .ok m1 →
      TimeDelta.milliseconds 1 = .ok m2 → m1.checked_add m2 = none) := by
  refine ⟨?_, ?_, ?_, ?_, ?_⟩
  · rw [TimeDelta.checked_add_eq a b ha hb]
    split_ifs with h
    · exact iff_of_false (by simp) (by omega)
    · exact iff_of_true rfl (by omega)
  · rw [TimeDelta.checked_add_eq a b ha hb]
    split_ifs with h
    · intro c hc
      injection hc with hc
      subst hc
      unfold TimeDelta.inv TimeDelta.totalNanos NANOS_PER_SEC i64MAX NANOS_PER_MILLI at *
      dsimp only
      refine ⟨⟨by omega, by omega, by omega, by omega⟩, by omega⟩
    · intro c hc
      exact absurd hc (by simp)
  · rw [TimeDelta.checked_sub_eq a b ha hb]
    split_ifs with h
    · exact iff_of_false (by simp) (by omega)
    · exact iff_of_true rfl (by omega)
  · rw [TimeDelta.checked_sub_eq a b ha hb]
    split_ifs with h
    · intro c hc
      injection hc with hc
      subst hc
      unfold TimeDelta.inv TimeDelta.totalNanos NANOS_PER_SEC i64MAX NANOS_PER_MILLI at *
      dsimp only
      refine ⟨⟨by omega, by omega, by omega, by omega⟩, by omega⟩
    · intro c hc
      exact absurd hc (by simp)
  · intro m1 m2 h1 h2
    rw [show TimeDelta.milliseconds i64MAX = .ok TimeDelta.MAX from by decide] at h1
    rw [show TimeDelta.milliseconds 1 = .ok ⟨0, 1000000⟩ from by decide] at h2
    injection h1 with h1
    injection h2 with h2
    subst h1
    subst h2
    decide

/-- Witness for C7 at `a = MAX`, `b = one millisecond`. -/
theorem c7_witness :
    (TimeDelta.MAX.checked_add ⟨0, 1000000⟩ = none ↔
      (TimeDelta.MAX.totalNanos + (⟨0, 1000000⟩ : TimeDelta).totalNanos < -(i64MAX * NANOS_PER_MILLI) ∨
        i64MAX * NANOS_PER_MILLI < TimeDelta.MAX.totalNanos + (⟨0, 1000000⟩ : TimeDelta).totalNanos)) ∧
    (∀ c, TimeDelta.MAX.checked_add ⟨0, 1000000⟩ = some c →
      c.inv ∧ c.totalNanos = TimeDelta.MAX.totalNanos + (⟨0, 1000000⟩ : TimeDelta).totalNanos) ∧
    (TimeDelta.MAX.checked_sub ⟨0, 1000000⟩ = none ↔
      (TimeDelta.MAX.totalNanos - (⟨0, 1000000⟩ : TimeDelta).totalNanos < -(i64MAX * NANOS_PER_MILLI) ∨
        i64MAX * NANOS_PER_MILLI < TimeDelta.MAX.totalNanos - (⟨0, 1000000⟩ : TimeDelta).totalNanos)) ∧
    (∀ c, TimeDelta.MAX.checked_sub ⟨0, 1000000⟩ = some c →
      c.inv ∧ c.totalNanos = TimeDelta.MAX.totalNanos - (⟨0, 1000000⟩ : TimeDelta).totalNanos) ∧
    (∀ m1 m2 : TimeDelta, TimeDelta.milliseconds i64MAX = .ok m1 →
      TimeDelta.milliseconds 1 = .ok m2 → m1.checked_add m2 = none) :=
  c7_checked_add_sub_overflow TimeDelta.MAX ⟨0, 1000000⟩ (by decide) (by decide)

/-- **C10**: on invariant-satisfying values, the derived lexicographic
ordering on `(secs, nanos)` agrees with the order of the exact represented
durations, and equality holds iff the exact values are equal. -/
theorem c10_derived_ord_semantic (a b : TimeDelta) (ha : a.inv) (hb : b.inv) :
    (TimeDelta.lt a b ↔ a.totalNanos < b.totalNanos) ∧
    (a = b ↔ a.totalNanos = b.totalNanos) := by
  obtain ⟨as, an⟩ := a
  obtain ⟨bs, bn⟩ := b
  obtain ⟨h0a, h1a, -, -⟩ := ha
  obtain ⟨h0b, h1b, -, -⟩ := hb
  unfold TimeDelta.lt TimeDelta.totalNanos NANOS_PER_SEC at *
  dsimp only at *
  rw [TimeDelta.mk.injEq]
  exact ⟨by omega, by omega⟩

/-- Witness for C10 at `a = ⟨-1, 999999999⟩`, `b = ⟨0, 0⟩`. -/
theorem c10_witness :
    (TimeDelta.lt ⟨-1, 999999999⟩ ⟨0, 0⟩ ↔
      (⟨-1, 999999999⟩ : TimeDelta).totalNanos < (⟨0, 0⟩ : TimeDelta).totalNanos) ∧
    ((⟨-1, 999999999⟩ : TimeDelta) = ⟨0, 0⟩ ↔
      (⟨-1, 999999999⟩ : TimeDelta).totalNanos = (⟨0, 0⟩ : TimeDelta).totalNanos) :=
  c10_derived_ord_semantic ⟨-1, 999999999⟩ ⟨0, 0⟩ (by decide) (by decide)

/-- Any value produced by `TimeDelta::new` through `.toOption` satisfies the
invariant. -/
theorem except_toOption_eq_some {a : Type} {x : Except Error a} {v : a} :
    x.toOption = some v ↔ x = .ok v := by
  cases x <;> simp [Except.toOption]

/-- A seconds-only value within range is accepted by `TimeDelta::new`. -/
theorem TimeDelta.new_zero_ok (secs : Int)
    (hlo : -(i64MAX * NANOS_PER_MILLI) ≤ secs * NANOS_PER_SEC)
    (hhi : secs * NANOS_PER_SEC ≤ i64MAX * NANOS_PER_MILLI) :
    ∃ d, (TimeDelta.new secs 0).toOption = some d ∧ d.inv := by
  refine ⟨⟨secs, ((0:Nat) : Int)⟩, ?_, ?_⟩
  · rw [TimeDelta.new_spec]
    rw [if_neg (by simp), if_neg (by
      unfold NANOS_PER_SEC i64MAX NANOS_PER_MILLI at *
      simp only [Nat.cast_zero]
      omega)]
    rfl
  · unfold TimeDelta.inv TimeDelta.totalNanos NANOS_PER_SEC i64MAX NANOS_PER_MILLI at *
    dsimp only
    simp only [Nat.cast_zero]
    refine ⟨by omega, by omega, by omega, by omega⟩

/-- **C1** (amended: multiplication removed, see `c1_counterexample`): the unit
constructors, the milliseconds/microseconds/nanoseconds constructors,
`checked_add`, `checked_sub`, `neg`, `abs`, division by a nonzero `i32`, and
`from_std` all yield values satisfying the representation invariant
(`0 ≤ nanos < 1_000_000_000` and value within `[MIN, MAX]`); multiplication by
an `i32` keeps `0 ≤ nanos < 1_000_000_000` but can silently leave `[MIN, MAX]`. -/
theorem c1_invariant_preservation :
    (∀ w : Int, -2147483648 ≤ w → w < 2147483648 →
      ∃ d, TimeDelta.weeks w = some d ∧ d.inv) ∧
    (∀ x : Int, -2147483648 ≤ x → x < 2147483648 →
      ∃ d, TimeDelta.days x = some d ∧ d.inv) ∧
    (∀ x : Int, -2147483648 ≤ x → x < 2147483648 →
      ∃ d, TimeDelta.hours x = some d ∧ d.inv) ∧
    (∀ x : Int, -2147483648 ≤ x → x < 2147483648 →
      ∃ d, TimeDelta.minutes x = some d ∧ d.inv) ∧
    (∀ x : Int, -2147483648 ≤ x → x < 2147483648 →
      ∃ d, TimeDelta.seconds x = some d ∧ d.inv) ∧
    (∀ ms : Int, i64MIN ≤ ms → ms ≤ i64MAX →
      ∀ d, TimeDelta.milliseconds ms = .ok d → d.inv) ∧
    (∀ x : Int, i64MIN ≤ x → x ≤ i64MAX → (TimeDelta.microseconds x).inv) ∧
    (∀ x : Int, i64MIN ≤ x → x ≤ i64MAX → (TimeDelta.nanoseconds x).inv) ∧
    (∀ a b c : TimeDelta, a.checked_add b = some c → c.inv) ∧
    (∀ a b c : TimeDelta, a.checked_sub b = some c → c.inv) ∧
    (∀ d : TimeDelta, d.inv → d.neg.inv) ∧
    (∀ d : TimeDelta, d.inv → d.abs.inv) ∧
    (∀ (d : TimeDelta) (k : Int), d.inv → k ≠ 0 → -2147483648 ≤ k → k < 2147483648 →
      (d.div k).inv) ∧
    (∀ sd : StdDuration, ∀ d, TimeDelta.from_std sd = .ok d → d.inv) ∧
    (∀ (d : TimeDelta) (k : Int), 0 ≤ (d.mul k).nanos ∧ (d.mul k).nanos < NANOS_PER_SEC) := by
  refine ⟨?_, ?_, ?_, ?_, ?_, ?_, ?_, ?_, ?_, ?_, ?_, ?_, ?_, ?_, ?_⟩
  · intro w h1 h2
    exact TimeDelta.new_zero_ok (w * SECS_PER_WEEK)
      (by unfold SECS_PER_WEEK NANOS_PER_SEC i64MAX NANOS_PER_MILLI; omega)
      (by unfold SECS_PER_WEEK NANOS_PER_SEC i64MAX NANOS_PER_MILLI; omega)
  · intro x h1 h2
    exact TimeDelta.new_zero_ok (x * SECS_PER_DAY)
      (by unfold SECS_PER_DAY NANOS_PER_SEC i64MAX NANOS_PER_MILLI; omega)
      (by unfold SECS_PER_DAY NANOS_PER_SEC i64MAX NANOS_PER_MILLI; omega)
  · intro x h1 h2
    exact TimeDelta.new_zero_ok (x * SECS_PER_HOUR)
      (by unfold SECS_PER_HOUR NANOS_PER_SEC i64MAX NANOS_PER_MILLI; omega)
      (by unfold SECS_PER_HOUR NANOS_PER_SEC i64MAX NANOS_PER_MILLI; omega)
  · intro x h1 h2
    exact TimeDelta.new_zero_ok (x * SECS_PER_MINUTE)
      (by unfold SECS_PER_MINUTE NANOS_PER_SEC i64MAX NANOS_PER_MILLI; omega)
      (by unfold SECS_PER_MINUTE NANOS_PER_SEC i64MAX NANOS_PER_MILLI; omega)
  · intro x h1 h2
    exact TimeDelta.new_zero_ok x
      (by unfold NANOS_PER_SEC i64MAX NANOS_PER_MILLI; omega)
      (by unfold NANOS_PER_SEC i64MAX NANOS_PER_MILLI; omega)
  · intro ms h1 h2 d hd
    unfold TimeDelta.milliseconds at hd
    split at hd
    · exact absurd hd (by simp)
    next h3 =>
      injection hd with hd
      subst hd
      unfold TimeDelta.inv TimeDelta.totalNanos MILLIS_PER_SEC NANOS_PER_MILLI NANOS_PER_SEC i64MAX i64MIN at *
      try dsimp only
      refine ⟨by omega, by omega, by omega, by omega⟩
  · intro x h1 h2
    unfold TimeDelta.microseconds TimeDelta.inv TimeDelta.totalNanos MICROS_PER_SEC NANOS_PER_MICRO NANOS_PER_SEC i64MAX i64MIN NANOS_PER_MILLI at *
    try dsimp only
    refine ⟨by omega, by omega, by omega, by omega⟩
  · intro x h1 h2
    unfold TimeDelta.nanoseconds TimeDelta.inv TimeDelta.totalNanos NANOS_PER_SEC i64MAX i64MIN NANOS_PER_MILLI at *
    try dsimp only
    refine ⟨by omega, by omega, by omega, by omega⟩
  · intro a b c h
    simp only [TimeDelta.checked_add] at h
    rw [except_toOption_eq_some] at h
    exact TimeDelta.new_ok_inv h
  · intro a b c h
    simp only [TimeDelta.checked_sub] at h
    rw [except_toOption_eq_some] at h
    exact TimeDelta.new_ok_inv h
  · intro d hd
    exact TimeDelta.neg_inv hd
  · intro d hd
    have h1 := TimeDelta.abs_spec d hd.1 hd.2.1
    have hub : |d.totalNanos| ≤ i64MAX * NANOS_PER_MILLI :=
      abs_le.mpr ⟨hd.2.2.1, hd.2.2.2⟩
    have hT : (0:Int) ≤ i64MAX * NANOS_PER_MILLI := by
      unfold i64MAX NANOS_PER_MILLI
      norm_num
    refine ⟨h1.2.1, h1.2.2, ?_, ?_⟩
    · rw [h1.1]
      linarith [abs_nonneg d.totalNanos]
    · rw [h1.1]
      exact hub
  · intro d k hd hk hk1 hk2
    exact (TimeDelta.div_spec d k hd hk hk1 hk2).1
  · intro sd d hd
    unfold TimeDelta.from_std at hd
    split at hd
    · exact absurd hd (by simp)
    · split at hd
      next heq =>
        injection hd with hd
        subst hd
        exact TimeDelta.new_ok_inv heq
      next heq => exact absurd hd (by simp)
  · intro d k
    simp only [TimeDelta.mul, NANOS_PER_SEC]
    constructor
    · exact Int.emod_nonneg _ (by norm_num)
    · exact Int.emod_lt_of_pos _ (by norm_num)

/-- Witness for C1: instances of each conjunct at concrete inputs. -/
theorem c1_witness :
    (∃ d, TimeDelta.weeks 1 = some d ∧ d.inv) ∧
    (∃ d, TimeDelta.seconds (-3) = some d ∧ d.inv) ∧
    (TimeDelta.microseconds (-1001)).inv ∧
    (TimeDelta.div ⟨-4, 0⟩ 3).inv ∧
    (TimeDelta.neg ⟨-2, 500000000⟩).inv := by
  have h := c1_invariant_preservation
  exact ⟨h.1 1 (by decide) (by decide),
    h.2.2.2.2.1 (-3) (by decide) (by decide),
    h.2.2.2.2.2.2.1 (-1001) (by decide) (by decide),
    h.2.2.2.2.2.2.2.2.2.2.2.2.1 ⟨-4, 0⟩ 3 (by decide) (by decide) (by decide) (by decide),
    h.2.2.2.2.2.2.2.2.2.2.1 ⟨-2, 500000000⟩ (by decide)⟩

/-- C1 as frozen is false for multiplication: `MAX` satisfies the invariant
and `2` is a valid nonzero `i32`, yet `MAX * 2` silently leaves `[MIN, MAX]`
(no `i64` overflow is even involved at this input). -/
theorem c1_counterexample :
    TimeDelta.inv TimeDelta.MAX ∧
    (-2147483648 ≤ (2:Int) ∧ (2:Int) < 2147483648 ∧ (2:Int) ≠ 0) ∧
    ¬ TimeDelta.inv (TimeDelta.mul TimeDelta.MAX 2) := by
  decide

/-- **C4** (amended): `d / k` returns a `TimeDelta` in normalized form
(`0 ≤ nanos < 1_000_000_000`, within `[MIN, MAX]`) whose exact value,
multiplied back by `k`, is within `2 * |k| - 2` nanoseconds of `d`'s exact
value — each of the two truncating divisions inside loses strictly less than
one nanosecond-per-`k` — but it is **not** the signed floor (nor the
truncation) of the exact quotient (see `c4_counterexample`). -/
theorem c4_div_truncation_bound (d : TimeDelta) (k : Int) (hd : d.inv) (hk : k ≠ 0)
    (hk1 : -2147483648 ≤ k) (hk2 : k < 2147483648) :
    0 ≤ (d.div k).nanos ∧ (d.div k).nanos < NANOS_PER_SEC ∧
    (d.div k).inv ∧
    |(d.div k).totalNanos * k - d.totalNanos| ≤ 2 * |k| - 2 :=
  ⟨(TimeDelta.div_spec d k hd hk hk1 hk2).1.1,
   (TimeDelta.div_spec d k hd hk hk1 hk2).1.2.1,
   (TimeDelta.div_spec d k hd hk hk1 hk2).1,
   (TimeDelta.div_spec d k hd hk hk1 hk2).2⟩

/-- Witness for C4 at `d = ⟨-4, 0⟩`, `k = 3`. -/
theorem c4_witness :
    0 ≤ (TimeDelta.div ⟨-4, 0⟩ 3).nanos ∧
    (TimeDelta.div ⟨-4, 0⟩ 3).nanos < NANOS_PER_SEC ∧
    (TimeDelta.div ⟨-4, 0⟩ 3).inv ∧
    |(TimeDelta.div ⟨-4, 0⟩ 3).totalNanos * 3 - (⟨-4, 0⟩ : TimeDelta).totalNanos|
      ≤ 2 * |(3:Int)| - 2 :=
  c4_div_truncation_bound ⟨-4, 0⟩ 3 (by decide) (by decide) (by decide) (by decide)

/-- C4 as frozen is false: at `d = ⟨1, 2⟩` (a valid `TimeDelta`) and `k = 3`,
the division returns total `333_333_333` ns while the signed floor (equal to
the truncation here) of `1_000_000_002 / 3` is `333_333_334` ns. -/
theorem c4_counterexample :
    TimeDelta.inv ⟨1, 2⟩ ∧ (3:Int) ≠ 0 ∧
    TimeDelta.div ⟨1, 2⟩ 3 = ⟨0, 333333333⟩ ∧
    (TimeDelta.totalNanos ⟨1, 2⟩).fdiv 3 = 333333334 ∧
    (TimeDelta.div ⟨1, 2⟩ 3).totalNanos ≠ (TimeDelta.totalNanos ⟨1, 2⟩).fdiv 3 ∧
    (TimeDelta.div ⟨1, 2⟩ 3).totalNanos ≠ (TimeDelta.totalNanos ⟨1, 2⟩).tdiv 3 := by
  decide

/-- Exact specification of `NaiveDateTime::signed_duration_since` on valid
operands: the internal `checked_add` (guarded by the source's
`expect!(..., "always in range")`) succeeds, and the result is the normalized
representation of the exact difference: day-difference in nanoseconds plus the
leap-second-aware time difference. -/
theorem NaiveDateTime.sds_spec (x y : NaiveDateTime) (hx : x.valid) (hy : y.valid) :
    ∃ d, x.signed_duration_since y = some d ∧ d.inv ∧
      d.totalNanos = (x.date.dayNumber - y.date.dayNumber) * 86400000000000
        + ((x.time.secs - y.time.secs
            + (if x.time.secs > y.time.secs ∧ y.time.frac ≥ 1000000000 then 1
               else if x.time.secs < y.time.secs ∧ x.time.frac ≥ 1000000000 then -1
               else 0)) * 1000000000 + (x.time.frac - y.time.frac)) := by
  obtain ⟨hxd, hxt⟩ := hx
  obtain ⟨hyd, hyt⟩ := hy
  unfold NaiveDate.valid at hxd hyd
  unfold NaiveTime.valid at hxt hyt
  have hdinv : (NaiveDate.signed_duration_since x.date y.date).inv := by
    unfold NaiveDate.signed_duration_since TimeDelta.inv TimeDelta.totalNanos SECS_PER_DAY NANOS_PER_SEC i64MAX NANOS_PER_MILLI
    dsimp only
    refine ⟨by omega, by omega, by omega, by omega⟩
  have hdt : (NaiveDate.signed_duration_since x.date y.date).totalNanos
      = (x.date.dayNumber - y.date.dayNumber) * 86400000000000 := by
    unfold NaiveDate.signed_duration_since TimeDelta.totalNanos SECS_PER_DAY NANOS_PER_SEC
    dsimp only
    ring
  have htinv : (NaiveTime.signed_duration_since x.time y.time).inv := by
    simp only [NaiveTime.signed_duration_since, NANOS_PER_SEC]
    unfold TimeDelta.inv TimeDelta.totalNanos NANOS_PER_SEC i64MAX NANOS_PER_MILLI
    dsimp only
    split_ifs <;> refine ⟨by omega, by omega, by omega, by omega⟩
  have htt : (NaiveTime.signed_duration_since x.time y.time).totalNanos
      = (x.time.secs - y.time.secs
          + (if x.time.secs > y.time.secs ∧ y.time.frac ≥ 1000000000 then 1
             else if x.time.secs < y.time.secs ∧ x.time.frac ≥ 1000000000 then -1
             else 0)) * 1000000000 + (x.time.frac - y.time.frac) := by
    simp only [NaiveTime.signed_duration_since, NANOS_PER_SEC]
    unfold TimeDelta.totalNanos NANOS_PER_SEC
    dsimp only
    split_ifs <;> omega
  have hadd := TimeDelta.checked_add_eq _ _ hdinv htinv
  rw [hdt, htt] at hadd
  refine ⟨⟨((x.date.dayNumber - y.date.dayNumber) * 86400000000000
        + ((x.time.secs - y.time.secs
            + (if x.time.secs > y.time.secs ∧ y.time.frac ≥ 1000000000 then 1
               else if x.time.secs < y.time.secs ∧ x.time.frac ≥ 1000000000 then -1
               else 0)) * 1000000000 + (x.time.frac - y.time.frac))) / NANOS_PER_SEC,
      ((x.date.dayNumber - y.date.dayNumber) * 86400000000000
        + ((x.time.secs - y.time.secs
            + (if x.time.secs > y.time.secs ∧ y.time.frac ≥ 1000000000 then 1
               else if x.time.secs < y.time.secs ∧ x.time.frac ≥ 1000000000 then -1
               else 0)) * 1000000000 + (x.time.frac - y.time.frac))) % NANOS_PER_SEC⟩,
    ?_, ?_, ?_⟩
  · unfold NaiveDateTime.signed_duration_since
    rw [hadd]
    rw [if_pos (by
      unfold i64MAX NANOS_PER_MILLI
      constructor <;> (split_ifs <;> omega))]
  · unfold TimeDelta.inv TimeDelta.totalNanos NANOS_PER_SEC i64MAX NANOS_PER_MILLI
    dsimp only
    split_ifs <;> refine ⟨by omega, by omega, by omega, by omega⟩
  · unfold TimeDelta.totalNanos NANOS_PER_SEC
    dsimp only
    split_ifs <;> omega

/-- **C3**: for every pair of valid `NaiveDateTime` values (any date within
the documented range combined with any valid time-of-day, leap-second slots
included), `signed_duration_since` always succeeds — the "always in range"
assertion on the checked `TimeDelta` addition is never reached — and the
result satisfies `a - b = -(b - a)`. -/
theorem c3_sds_never_fails_antisym (a b : NaiveDateTime) (ha : a.valid) (hb : b.valid) :
    (∃ d, a.signed_duration_since b = some d) ∧
    a.signed_duration_since b = (b.signed_duration_since a).map TimeDelta.neg := by
  obtain ⟨d1, hd1, hd1inv, hd1t⟩ := NaiveDateTime.sds_spec a b ha hb
  obtain ⟨d2, hd2, hd2inv, hd2t⟩ := NaiveDateTime.sds_spec b a hb ha
  refine ⟨⟨d1, hd1⟩, ?_⟩
  rw [hd1, hd2]
  show some d1 = some (TimeDelta.neg d2)
  refine congrArg some ?_
  refine TimeDelta.totalNanos_inj hd1inv.1 hd1inv.2.1
    (TimeDelta.neg_inv hd2inv).1 (TimeDelta.neg_inv hd2inv).2.1 ?_
  rw [TimeDelta.neg_totalNanos, hd1t, hd2t]
  split_ifs <;> omega

/-- Witness for C3 at two concrete date-times (the second inside a leap
second). -/
theorem c3_witness :
    (∃ d, NaiveDateTime.signed_duration_since ⟨⟨17000⟩, ⟨3600, 0⟩⟩ ⟨⟨16999⟩, ⟨86399, 1500000000⟩⟩
      = some d) ∧
    NaiveDateTime.signed_duration_since ⟨⟨17000⟩, ⟨3600, 0⟩⟩ ⟨⟨16999⟩, ⟨86399, 1500000000⟩⟩
      = (NaiveDateTime.signed_duration_since ⟨⟨16999⟩, ⟨86399, 1500000000⟩⟩
          ⟨⟨17000⟩, ⟨3600, 0⟩⟩).map TimeDelta.neg :=
  c3_sds_never_fails_antisym ⟨⟨17000⟩, ⟨3600, 0⟩⟩ ⟨⟨16999⟩, ⟨86399, 1500000000⟩⟩
    (by constructor <;> constructor <;> decide) (by constructor <;> constructor <;> decide)

/-- The `expect(MinutesAndSeconds::from_seconds(0), "in range")` in
`CalendarDuration::new()` indeed succeeds, with the packed word `0b10`. -/
theorem from_seconds_zero : MinutesAndSeconds.from_seconds 0 = some ⟨2⟩ := by decide

/-- Round-trip of the minutes+seconds encoder through the decoder. -/
theorem mins_and_secs_roundtrip (mins secs : Nat) (hm : mins < 72057594037927936)
    (hs : secs ≤ 60) (w : MinutesAndSeconds)
    (hw : MinutesAndSeconds.from_minutes_and_seconds mins secs = some w) :
    w.mins_and_secs = (mins, secs) := by
  unfold MinutesAndSeconds.from_minutes_and_seconds at hw
  rw [if_neg (by omega)] at hw
  injection hw with hw
  subst hw
  unfold MinutesAndSeconds.mins_and_secs
  dsimp only
  by_cases hm0 : mins > 0
  · rw [if_pos hm0, if_neg (by omega)]
    rw [Prod.mk.injEq]
    constructor <;> omega
  · rw [if_neg hm0, if_pos (by omega)]
    rw [Prod.mk.injEq]
    constructor <;> omega

/-- **C8**: for every minutes total `m = hours * 60 + minutes ≤ 2^56 - 1` and
seconds value `s ≤ 60`, `with_hms` succeeds and `mins_and_secs()` decodes
exactly `(m, s)`; `CalendarDuration::new().is_zero()` holds; and
`with_seconds(0)` yields a value whose minutes/seconds decoding equals the
default's and which is itself zero. -/
theorem c8_hms_roundtrip (hours minutes seconds : Nat)
    (hm : hours * 60 + minutes ≤ 72057594037927935) (hs : seconds ≤ 60) :
    (∃ cd, CalendarDuration.new.with_hms hours minutes seconds = some cd ∧
      cd.minsSecs = (hours * 60 + minutes, seconds)) ∧
    CalendarDuration.new.is_zero = true ∧
    (∃ z, CalendarDuration.new.with_seconds 0 = some z ∧
      z.minsSecs = CalendarDuration.new.minsSecs ∧ z.is_zero = true) := by
  refine ⟨?_, by decide, ⟨CalendarDuration.new, by decide, by decide, by decide⟩⟩
  have henc : MinutesAndSeconds.from_minutes_and_seconds (hours * 60 + minutes) seconds
      = some ⟨(hours * 60 + minutes) * 256 + seconds * 4
          + (if hours * 60 + minutes > 0 then 1 else 0) + 2⟩ := by
    unfold MinutesAndSeconds.from_minutes_and_seconds
    rw [if_neg (by omega)]
  refine ⟨⟨0, 0, ⟨(hours * 60 + minutes) * 256 + seconds * 4
      + (if hours * 60 + minutes > 0 then 1 else 0) + 2⟩, 0⟩, ?_, ?_⟩
  · unfold CalendarDuration.with_hms
    rw [if_neg (by omega), if_neg (by omega), henc]
    rfl
  · exact mins_and_secs_roundtrip (hours * 60 + minutes) seconds (by omega) hs _ henc

/-- Witness for C8 at `hours = 3, minutes = 4, seconds = 5`. -/
theorem c8_witness :
    (∃ cd, CalendarDuration.new.with_hms 3 4 5 = some cd ∧
      cd.minsSecs = (3 * 60 + 4, 5)) ∧
    CalendarDuration.new.is_zero = true ∧
    (∃ z, CalendarDuration.new.with_seconds 0 = some z ∧
      z.minsSecs = CalendarDuration.new.minsSecs ∧ z.is_zero = true) :=
  c8_hms_roundtrip 3 4 5 (by decide) (by decide)

/-- C9 as frozen is false: encoding "zero" through the minutes+seconds
encoder produces the **same** packed word (`0b10`) as the seconds-only
encoder — the `(mins > 0)` tag deliberately collapses any minutes-free
encoding onto the seconds-only one, exactly as the source comment states. -/
theorem c9_counterexample :
    MinutesAndSeconds.from_minutes_and_seconds 0 0 = MinutesAndSeconds.from_seconds 0 ∧
    MinutesAndSeconds.from_minutes_and_seconds 0 0 = some ⟨2⟩ ∧
    MinutesAndSeconds.from_seconds 0 = some ⟨2⟩ := by
  decide

/-- **C9** (amended): the "zero via minutes-and-seconds" word is
bit-identical to the "zero via seconds-only" word (`c9_counterexample`);
`is_zero()` decodes the packed word, and on any value whose accurate-time
word was built by the minutes+seconds encoder it is true iff months, days,
encoded minutes, encoded seconds, and nanos are all zero. -/
theorem c9_is_zero_decode (m d n mins secs : Nat) (hm : mins < 72057594037927936)
    (hs : secs ≤ 60) (w : MinutesAndSeconds)
    (hw : MinutesAndSeconds.from_minutes_and_seconds mins secs = some w) :
    (CalendarDuration.is_zero ⟨m, d, w, n⟩ = true ↔
      (m = 0 ∧ d = 0 ∧ mins = 0 ∧ secs = 0 ∧ n = 0)) := by
  have hrt := mins_and_secs_roundtrip mins secs hm hs w hw
  simp only [CalendarDuration.is_zero, hrt]
  simp only [Bool.and_eq_true, beq_iff_eq]
  constructor
  · rintro ⟨⟨⟨⟨h1, h2⟩, h3⟩, h4⟩, h5⟩
    exact ⟨h1, h2, h3, h4, h5⟩
  · rintro ⟨h1, h2, h3, h4, h5⟩
    exact ⟨⟨⟨⟨h1, h2⟩, h3⟩, h4⟩, h5⟩

/-- Witness for the amended C9 at the all-zero input. -/
theorem c9_witness :
    CalendarDuration.is_zero ⟨0, 0, ⟨2⟩, 0⟩ = true ↔
      ((0:Nat) = 0 ∧ (0:Nat) = 0 ∧ (0:Nat) = 0 ∧ (0:Nat) = 0 ∧ (0:Nat) = 0) :=
  c9_is_zero_decode 0 0 0 0 0 (by decide) (by decide) ⟨2⟩ (by decide)

end Chrono



